import Mathlib

/-!
Verification of the target-triple parser and crosstool configuration emitter
from `src/triple.rs` of the `chained` repository.

The Rust module is embedded shallowly:
  * every enumeration becomes a Lean inductive with the same constructors;
  * the winnow `ident` lexer, `separated(1.., ident, '-')` tokenizer,
    `Arch::parse1`, `Os::parse_osabi`, `Triple::parse` and the `FromStr`
    instance (which additionally requires the whole input to be consumed)
    become functions over `List Char` / `String`;
  * Rust panics (`panic!()`, `.unwrap()` on a failed enum parse, and the
    `todo!` placeholders) are modeled by the `RunError.panicked` error
    constructor, while a winnow parse error surfaced through `FromStr`
    is `RunError.err`;
  * the `todo!("sh3 big endian")` arm of `Display for Arch` makes the
    display of an `Sh3 Big` architecture a panic, so `Arch.display`
    returns `Option String`, with `none` modeling that panic;
  * `emit_crosstool_config` methods mutate a `Vec<String>` by pushing;
    they are embedded as functions `List String → List String` that
    append the pushed elements to the given list.
-/

namespace Chained

/-- Enum `Endian` from `triple.rs`. -/
inductive Endian where
  | Little
  | Big
deriving DecidableEq

/-- Enum `X86Variant` from `triple.rs`. -/
inductive X86Variant where
  | I386
  | I586
  | I686
  | X86_64
  | X86_64h
deriving DecidableEq

/-- Enum `Arch` from `triple.rs`. -/
inductive Arch where
  | Arm64 (e : Endian)
  | M68k
  | Mips32 (e : Endian)
  | Mips64 (e : Endian)
  | Sh3 (e : Endian)
  | X86 (v : X86Variant)
deriving DecidableEq

/-- Enum `LinuxLibc` from `triple.rs` (strum `EnumString`/`Display`, lowercase). -/
inductive LinuxLibc where
  | Gnu
  | Musl
  | Uclibc
deriving DecidableEq

/-- Enum `NoneAbi` from `triple.rs` (strum `EnumString`/`Display`, lowercase). -/
inductive NoneAbi where
  | Elf
deriving DecidableEq

/-- Enum `Os` from `triple.rs`. -/
inductive Os where
  | Linux (libc : LinuxLibc)
  | None (abi : NoneAbi)
deriving DecidableEq

/-- Struct `Triple` from `triple.rs`. -/
structure Triple where
  arch : Arch
  vendor : String
  os : Os
deriving DecidableEq

/-- How a run of the parsing code can fail: `err` is a winnow parse error
surfaced as the `Err` of `FromStr`; `panicked` models a Rust panic
(`panic!`, `unwrap`, `todo!`), which is not an error value at all. -/
inductive RunError where
  | err
  | panicked (msg : String)
deriving DecidableEq

/-- Method `Arch::endian_cfg` from `triple.rs`. -/
def Arch.endian_cfg : Arch → String
  | .Arm64 e | .Mips32 e | .Mips64 e | .Sh3 e =>
    match e with
    | .Little => "CT_ARCH_LE=y"
    | .Big => "CT_ARCH_BE=y"
  | .M68k | .X86 _ => "CT_ARCH_LE=y"

/-- Method `Arch::bitness_cfg` from `triple.rs`. -/
def Arch.bitness_cfg : Arch → String
  | .Arm64 _ | .Mips64 _ | .X86 .X86_64 | .X86 .X86_64h => "CT_ARCH_64=y"
  | .Mips32 _ | .Sh3 _ | .M68k | .X86 _ => "CT_ARCH_32=y"

/-- The `arch_cfg` match bound inside `Arch::emit_crosstool_config`. -/
def Arch.family_cfg : Arch → String
  | .Arm64 _ => "CT_ARCH_ARM=y"
  | .Mips32 _ | .Mips64 _ => "CT_ARCH_MIPS=y"
  | .Sh3 _ => "CT_ARCH_SH=y"
  | .M68k => "CT_ARCH_M68K=y"
  | .X86 _ => "CT_ARCH_X86=y"

/-- Method `Arch::emit_crosstool_config`: three pushes onto `opts`. -/
def Arch.emit_crosstool_config (a : Arch) (opts : List String) : List String :=
  opts ++ [a.family_cfg, a.endian_cfg, a.bitness_cfg]

/-- First character of a winnow `ident`: `c.is_alpha() || c == '_'`
(`is_alpha` on `char` is ASCII-alphabetic, as is `Char.isAlpha`). -/
def isIdentStart (c : Char) : Bool := c.isAlpha || c = '_'

/-- Continuation character of a winnow `ident`:
`c.is_alphanum() || c == '_'` (ASCII alphanumeric). -/
def isIdentCont (c : Char) : Bool := c.isAlphanum || c = '_'

/-- The `ident` lexer from `triple.rs`: one identifier-start character
followed by `take_while(0..)` continuation characters; returns the matched
token and the remaining input, or `none` on lexical failure. -/
def ident : List Char → Option (List Char × List Char)
  | [] => none
  | c :: cs =>
    if isIdentStart c then
      some (c :: cs.takeWhile isIdentCont, cs.dropWhile isIdentCont)
    else
      none

/-- The loop of `separated(1.., ident, '-')` after the first element: while
the rest starts with `'-'` followed by an `ident`, consume both; stop
(backtracking the separator) otherwise. Returns the accumulated tokens and
the unconsumed rest. The `fuel` argument only makes the recursion
structural: every iteration consumes at least two characters, so fuel equal
to the input length is never exhausted (see `sepIdents_fuel_enough`). -/
def sepIdents : Nat → List (List Char) → List Char → List (List Char) × List Char
  | 0, acc, s => (acc, s)
  | fuel + 1, acc, s =>
    match s with
    | '-' :: rest =>
      match ident rest with
      | some (tok, r) => sepIdents fuel (acc ++ [tok]) r
      | none => (acc, '-' :: rest)
    | _ => (acc, s)

/-- Combinator `separated(1.., ident, '-')` as used by `Triple::parse`: at least one
`ident`, then the separator loop. `none` is a winnow parse error. -/
def parseIdentList (s : List Char) : Option (List (List Char) × List Char) :=
  match ident s with
  | some (tok, r) => some (sepIdents r.length [tok] r)
  | none => none

/-- The architecture dispatch table of `Arch::parse1`. -/
def archTable (s : String) : Option Arch :=
  match s with
  | "m68k" => some .M68k
  | "aarch64" => some (.Arm64 .Little)
  | "arm64" => some (.Arm64 .Little)
  | "aarch64_be" => some (.Arm64 .Big)
  | "mipsel" => some (.Mips32 .Little)
  | "mips" => some (.Mips32 .Big)
  | "mips64" => some (.Mips64 .Big)
  | "mips64el" => some (.Mips64 .Little)
  | "i386" => some (.X86 .I386)
  | "i586" => some (.X86 .I586)
  | "i686" => some (.X86 .I686)
  | "x86_64" => some (.X86 .X86_64)
  | "x86_64h" => some (.X86 .X86_64h)
  | "sh3" => some (.Sh3 .Little)
  | _ => none

/-- Method `Arch::parse1`: run `ident` on the token, dispatch on the matched text
(the `dispatch!` macro); the `_ => fail` arm and a lexical failure are
winnow errors. The input left over after the `ident` is not inspected
(`empty` consumes nothing), exactly as in the source. -/
def Arch.parse1 (s : List Char) : Except RunError Arch :=
  match ident s with
  | some (tok, _) =>
    match archTable (String.mk tok) with
    | some a => .ok a
    | none => .error .err
  | none => .error .err

/-- strum `FromStr` for `LinuxLibc` (lowercase exact match). -/
def LinuxLibc.fromStrQ : String → Option LinuxLibc
  | "gnu" => some .Gnu
  | "musl" => some .Musl
  | "uclibc" => some .Uclibc
  | _ => none

/-- strum `Display` for `LinuxLibc` (lowercase). -/
def LinuxLibc.display : LinuxLibc → String
  | .Gnu => "gnu"
  | .Musl => "musl"
  | .Uclibc => "uclibc"

/-- strum `FromStr` for `NoneAbi` (lowercase exact match). -/
def NoneAbi.fromStrQ : String → Option NoneAbi
  | "elf" => some .Elf
  | _ => none

/-- strum `Display` for `NoneAbi` (lowercase). -/
def NoneAbi.display : NoneAbi → String
  | .Elf => "elf"

/-- strum `Display` for `Os`: `"linux-{0}"` / `"none-{0}"`. -/
def Os.display : Os → String
  | .Linux libc => "linux-" ++ libc.display
  | .None abi => "none-" ++ abi.display

/-- Method `Os::parse_osabi` from `triple.rs`. The source calls `.unwrap()` on the
abi parse (a panic when the token is unknown) and `panic!()` on an unknown
kernel token; both are `RunError.panicked`. -/
def Os.parse_osabi (os abi : String) : Except RunError Os :=
  match os with
  | "linux" =>
    match LinuxLibc.fromStrQ abi with
    | some libc => .ok (.Linux libc)
    | none => .error (.panicked "unwrap")
  | "none" | "unknown" =>
    match NoneAbi.fromStrQ abi with
    | some a => .ok (.None a)
    | none => .error (.panicked "unwrap")
  | _ => .error (.panicked "explicit panic")

/-- Method `Os::emit_crosstool_config`: a kernel push, then for Linux one libc
push (note the `Uclibc` literal lacks the `=y` marker, as in the source);
the `Elf` abi contributes nothing. -/
def Os.emit_crosstool_config (o : Os) (opts : List String) : List String :=
  match o with
  | .Linux libc =>
    (opts ++ ["CT_KERNEL_LINUX=y"]) ++
      (match libc with
       | .Gnu => ["CT_LIBC_GLIBC=y"]
       | .Musl => ["CT_LIBC_MUSL=y"]
       | .Uclibc => ["CT_LIBC_UCLIBC_NG"])
  | .None abi =>
    (opts ++ ["CT_KERNEL_BARE_METAL=y"]) ++
      (match abi with
       | .Elf => [])

/-- Method `Triple::parse` from `triple.rs`: tokenize with
`separated(1.., ident, '-')`, then match on the token count; 3 tokens give
the default vendor `"unknown"`, 4 tokens take the vendor verbatim, any
other count hits the `todo!` placeholder (a panic). Field initializers run
in declaration order: arch, vendor, os. -/
def Triple.parse (s : List Char) : Except RunError (Triple × List Char) :=
  match parseIdentList s with
  | none => .error .err
  | some (toks, rest) =>
    match toks with
    | [arch, os, abi] => do
      let a ← Arch.parse1 arch
      let o ← Os.parse_osabi (String.mk os) (String.mk abi)
      .ok (⟨a, "unknown", o⟩, rest)
    | [arch, vendor, os, abi] => do
      let a ← Arch.parse1 arch
      let o ← Os.parse_osabi (String.mk os) (String.mk abi)
      .ok (⟨a, String.mk vendor, o⟩, rest)
    | _ => .error (.panicked "todo: proper errors, invalid triple length or something")

/-- Impl `FromStr for Triple`: `Triple::parse.parse(s)` — winnow `Parser::parse`
additionally demands that the whole input is consumed and otherwise
reports a parse error. -/
def Triple.fromStr (s : String) : Except RunError Triple :=
  match Triple.parse s.data with
  | .error e => .error e
  | .ok (t, rest) => if rest = [] then .ok t else .error .err

/-- Impl `Display for Arch`: canonical spelling; the `Sh3(Big)` arm is
`todo!("sh3 big endian")`, a panic, modeled as `none`. -/
def Arch.display : Arch → Option String
  | .Arm64 .Little => some "aarch64"
  | .Arm64 .Big => some "aarch64_be"
  | .M68k => some "m68k"
  | .Mips32 .Little => some "mipsel"
  | .Mips32 .Big => some "mips"
  | .Mips64 .Little => some "mips64el"
  | .Mips64 .Big => some "mips64"
  | .Sh3 .Little => some "sh3"
  | .Sh3 .Big => none
  | .X86 .I386 => some "i386"
  | .X86 .I586 => some "i586"
  | .X86 .I686 => some "i686"
  | .X86 .X86_64 => some "x86_64"
  | .X86 .X86_64h => some "x86_64h"

/-- Impl `Display for Triple`: `"{arch}-{vendor}-{os}"`; panics (is `none`)
exactly when the arch display panics. -/
def Triple.display (t : Triple) : Option String :=
  (t.arch.display).map (fun a => a ++ "-" ++ t.vendor ++ "-" ++ t.os.display)

/-- Method `Triple::emit_crosstool_config`: arch directives, then the vendor
directive, then the os directives. -/
def Triple.emit_crosstool_config (t : Triple) (opts : List String) : List String :=
  t.os.emit_crosstool_config
    ((t.arch.emit_crosstool_config opts) ++ ["CT_TARGET_VENDOR=" ++ t.vendor])

/-!
## Proof-support definitions
-/

/-- A list of characters shaped like a winnow `ident` token: a start
character followed by continuation characters. Exactly the tokens the
tokenizer can produce. -/
def isIdentToken (l : List Char) : Bool :=
  match l with
  | [] => false
  | c :: cs => isIdentStart c && cs.all isIdentCont

/-- The input either is exhausted or continues with a character that
cannot extend an identifier: the boundary at which `ident` stops. -/
def headNotCont (l : List Char) : Prop :=
  match l with
  | [] => True
  | c :: _ => isIdentCont c = false

/-- Dash-prefixed concatenation: `joinDash [t1, ..., tn]` is
`-t1-t2...-tn`, so `t0 ++ joinDash [t1, ..., tn]` is the dash-separated
rendering of the token list `t0 :: [t1, ..., tn]`. -/
def joinDash : List (List Char) → List Char
  | [] => []
  | t :: ts => '-' :: (t ++ joinDash ts)

/-- The kernel token of the canonical serialization of an `Os`. -/
def Os.kernelStr : Os → String
  | .Linux _ => "linux"
  | .None _ => "none"

/-- The abi token of the canonical serialization of an `Os`. -/
def Os.abiStr : Os → String
  | .Linux libc => libc.display
  | .None abi => abi.display

/-- All architecture identifiers accepted by the dispatch table of
`Arch::parse1`. -/
def archTokens : List String :=
  ["m68k", "aarch64", "arm64", "aarch64_be", "mipsel", "mips",
    "mips64", "mips64el", "i386", "i586", "i686", "x86_64", "x86_64h", "sh3"]

/-- All supported kernel/abi token pairs. -/
def osAbiPairs : List (String × String) :=
  [("linux", "gnu"), ("linux", "musl"), ("linux", "uclibc"),
    ("none", "elf"), ("unknown", "elf")]

/-- One instance of the default-vendor equivalence: the 3-token spelling
and the 4-token spelling with explicit vendor `unknown` both parse, agree,
and carry vendor `"unknown"`. -/
def vendorDefaultAgrees (a : String) (p : String × String) : Bool :=
  match Triple.fromStr (a ++ "-" ++ p.1 ++ "-" ++ p.2),
      Triple.fromStr (a ++ "-unknown-" ++ p.1 ++ "-" ++ p.2) with
  | .ok t1, .ok t2 => t1 == t2 && t1.vendor == "unknown"
  | _, _ => false

/-!
## Parser lemmas
-/

theorem dropWhile_length_le (p : Char → Bool) (l : List Char) :
    (l.dropWhile p).length ≤ l.length := by
  induction l with
  | nil => simp
  | cons c cs ih =>
    by_cases hc : p c
    · rw [List.dropWhile_cons_of_pos hc]
      exact Nat.le_succ_of_le ih
    · rw [List.dropWhile_cons_of_neg hc]

theorem ident_rest_length {s tok r : List Char} (h : ident s = some (tok, r)) :
    r.length < s.length := by
  match s with
  | [] => simp [ident] at h
  | c :: cs =>
    simp only [ident] at h
    split at h
    · cases h
      exact Nat.lt_succ_of_le (dropWhile_length_le _ _)
    · cases h

theorem mkData (s : String) : String.mk s.data = s := by
  cases s
  rfl

theorem dataAppend (a b : String) : (a ++ b).data = a.data ++ b.data := by
  cases a
  cases b
  rfl

/-- Function `sepIdents` ignores a fuel surplus: any fuel at least the input length
gives the same result, so fuel `s.length` realizes the winnow loop. -/
theorem sepIdents_fuel_enough (fuel fuel' : Nat) (acc : List (List Char))
    (s : List Char) (h : s.length ≤ fuel) (h' : s.length ≤ fuel') :
    sepIdents fuel acc s = sepIdents fuel' acc s := by
  induction fuel generalizing fuel' acc s with
  | zero =>
    have : s = [] := List.eq_nil_of_length_eq_zero (Nat.le_zero.mp h)
    subst this
    match fuel' with
    | 0 => rfl
    | f + 1 => rfl
  | succ fuel ih =>
    match fuel', s with
    | 0, s =>
      have : s = [] := List.eq_nil_of_length_eq_zero (Nat.le_zero.mp h')
      subst this
      rfl
    | f' + 1, [] => rfl
    | f' + 1, c :: cs =>
      show sepIdents (fuel + 1) acc (c :: cs) = sepIdents (f' + 1) acc (c :: cs)
      by_cases hc : c = '-'
      · subst hc
        simp only [sepIdents]
        match hi : ident cs with
        | some (tok, r) =>
          have hr : r.length < cs.length := ident_rest_length hi
          have h1 : r.length ≤ fuel := by
            simp only [List.length_cons] at h
            omega
          have h2 : r.length ≤ f' := by
            simp only [List.length_cons] at h'
            omega
          exact ih f' (acc ++ [tok]) r h1 h2
        | none => rfl
      · simp only [sepIdents]
        split
        · rename_i heq
          cases heq
          exact absurd rfl hc
        · rfl

theorem dataMk (l : List Char) : (String.mk l).data = l := rfl

theorem takeWhile_app (cs rest : List Char) (h : cs.all isIdentCont = true)
    (hr : headNotCont rest) : (cs ++ rest).takeWhile isIdentCont = cs := by
  induction cs with
  | nil =>
    match rest, hr with
    | [], _ => rfl
    | c :: cs, hr =>
      simp only [List.nil_append]
      exact List.takeWhile_cons_of_neg (by simp [show isIdentCont c = false from hr])
  | cons d ds ih =>
    simp only [List.all_cons, Bool.and_eq_true] at h
    simp only [List.cons_append]
    rw [List.takeWhile_cons_of_pos h.1, ih h.2]

theorem dropWhile_app (cs rest : List Char) (h : cs.all isIdentCont = true)
    (hr : headNotCont rest) : (cs ++ rest).dropWhile isIdentCont = rest := by
  induction cs with
  | nil =>
    match rest, hr with
    | [], _ => rfl
    | c :: cs, hr =>
      simp only [List.nil_append]
      exact List.dropWhile_cons_of_neg (by simp [show isIdentCont c = false from hr])
  | cons d ds ih =>
    simp only [List.all_cons, Bool.and_eq_true] at h
    simp only [List.cons_append]
    rw [List.dropWhile_cons_of_pos h.1, ih h.2]

/-- Lexer `ident` consumes exactly an identifier-shaped token when what follows
cannot extend it. -/
theorem ident_token_app (t rest : List Char) (ht : isIdentToken t = true)
    (hr : headNotCont rest) : ident (t ++ rest) = some (t, rest) := by
  match t, ht with
  | c :: cs, ht =>
    simp only [isIdentToken, Bool.and_eq_true] at ht
    simp only [List.cons_append, ident, ht.1, if_true]
    rw [takeWhile_app cs rest ht.2 hr, dropWhile_app cs rest ht.2 hr]

theorem headNotCont_joinDash (ts : List (List Char)) : headNotCont (joinDash ts) := by
  cases ts with
  | nil => trivial
  | cons t ts =>
    show isIdentCont '-' = false
    decide

/-- The separator loop consumes a dash-joined list of identifier tokens
completely, appending them to the accumulator, given enough fuel. -/
theorem sepIdents_joinDash (ts : List (List Char)) :
    ∀ (fuel : Nat) (acc : List (List Char)),
      (∀ t ∈ ts, isIdentToken t = true) →
      (joinDash ts).length ≤ fuel →
      sepIdents fuel acc (joinDash ts) = (acc ++ ts, []) := by
  induction ts with
  | nil =>
    intro fuel acc _ _
    match fuel with
    | 0 => simp [sepIdents, joinDash]
    | f + 1 => simp [sepIdents, joinDash]
  | cons t ts ih =>
    intro fuel acc hall hlen
    have ht : isIdentToken t = true := hall t (by simp)
    match fuel with
    | 0 =>
      exfalso
      simp [joinDash] at hlen
    | f + 1 =>
      show sepIdents (f + 1) acc ('-' :: (t ++ joinDash ts)) = (acc ++ t :: ts, [])
      simp only [sepIdents]
      rw [ident_token_app t (joinDash ts) ht (headNotCont_joinDash ts)]
      have hf : (joinDash ts).length ≤ f := by
        simp only [joinDash, List.length_cons, List.length_append] at hlen
        omega
      show sepIdents f (acc ++ [t]) (joinDash ts) = (acc ++ t :: ts, [])
      rw [ih f (acc ++ [t]) (fun x hx => hall x (by simp [hx])) hf]
      simp

/-- The full tokenizer on a dash-joined list of identifier tokens returns
exactly those tokens with nothing left over. -/
theorem parseIdentList_joinDash (t : List Char) (ts : List (List Char))
    (ht : isIdentToken t = true) (hts : ∀ x ∈ ts, isIdentToken x = true) :
    parseIdentList (t ++ joinDash ts) = some (t :: ts, []) := by
  unfold parseIdentList
  rw [ident_token_app t (joinDash ts) ht (headNotCont_joinDash ts)]
  show some (sepIdents (joinDash ts).length [t] (joinDash ts)) = some (t :: ts, [])
  rw [sepIdents_joinDash ts (joinDash ts).length [t] hts (Nat.le_refl _)]
  simp

/-- A string whose characters are four dash-separated identifier tokens
parses via the 4-token shape of `Triple::parse`: the vendor is taken
verbatim, and the result is determined by the arch and os/abi parses. -/
theorem fromStr_via_tokens (s : String) (t1 t2 t3 t4 : List Char) {a : Arch} {o : Os}
    (hs : s.data = t1 ++ '-' :: (t2 ++ '-' :: (t3 ++ '-' :: t4)))
    (h1 : isIdentToken t1 = true) (h2 : isIdentToken t2 = true)
    (h3 : isIdentToken t3 = true) (h4 : isIdentToken t4 = true)
    (ha : Arch.parse1 t1 = .ok a)
    (ho : Os.parse_osabi (String.mk t3) (String.mk t4) = .ok o) :
    Triple.fromStr s = .ok ⟨a, String.mk t2, o⟩ := by
  have hjoin : t1 ++ joinDash [t2, t3, t4] = t1 ++ '-' :: (t2 ++ '-' :: (t3 ++ '-' :: t4)) := by
    simp [joinDash]
  have hts : ∀ x ∈ [t2, t3, t4], isIdentToken x = true := by
    intro x hx
    simp only [List.mem_cons, List.not_mem_nil, or_false] at hx
    rcases hx with rfl | rfl | rfl <;> assumption
  have hp : parseIdentList s.data = some ([t1, t2, t3, t4], []) := by
    rw [hs, ← hjoin]
    exact parseIdentList_joinDash t1 [t2, t3, t4] h1 hts
  have hparse : Triple.parse s.data = .ok (⟨a, String.mk t2, o⟩, []) := by
    unfold Triple.parse
    rw [hp]
    simp only [ha, ho]
    rfl
  unfold Triple.fromStr
  rw [hparse]
  simp

/-- Only `Sh3(Big)` has no canonical display (its `Display` arm is the
`todo!` placeholder). -/
theorem arch_display_none {a : Arch} (h : a.display = none) : a = .Sh3 .Big := by
  cases a with
  | Arm64 e => cases e <;> simp [Arch.display] at h
  | M68k => simp [Arch.display] at h
  | Mips32 e => cases e <;> simp [Arch.display] at h
  | Mips64 e => cases e <;> simp [Arch.display] at h
  | Sh3 e =>
    cases e with
    | Little => simp [Arch.display] at h
    | Big => rfl
  | X86 x => cases x <;> simp [Arch.display] at h

/-- Every canonical arch spelling is an identifier token and maps back to
its architecture through the dispatch table. -/
theorem arch_display_parse1 {a : Arch} {s : String} (h : a.display = some s) :
    Arch.parse1 s.data = .ok a ∧ isIdentToken s.data = true := by
  cases a with
  | Arm64 e =>
    cases e <;>
      (simp only [Arch.display, Option.some.injEq] at h; subst h; exact ⟨rfl, by decide⟩)
  | M68k =>
    simp only [Arch.display, Option.some.injEq] at h
    subst h
    exact ⟨rfl, by decide⟩
  | Mips32 e =>
    cases e <;>
      (simp only [Arch.display, Option.some.injEq] at h; subst h; exact ⟨rfl, by decide⟩)
  | Mips64 e =>
    cases e <;>
      (simp only [Arch.display, Option.some.injEq] at h; subst h; exact ⟨rfl, by decide⟩)
  | Sh3 e =>
    cases e with
    | Little =>
      simp only [Arch.display, Option.some.injEq] at h
      subst h
      exact ⟨rfl, by decide⟩
    | Big => simp [Arch.display] at h
  | X86 x =>
    cases x <;>
      (simp only [Arch.display, Option.some.injEq] at h; subst h; exact ⟨rfl, by decide⟩)

theorem sepIdents_nil (fuel : Nat) (acc : List (List Char)) :
    sepIdents fuel acc [] = (acc, []) := by
  match fuel with
  | 0 => rfl
  | f + 1 => rfl

/-- The separator loop stops immediately at a character other than
`'-'`. -/
theorem sepIdents_stop (fuel : Nat) (acc : List (List Char)) (c : Char)
    (cs : List Char) (hc : c ≠ '-') : sepIdents fuel acc (c :: cs) = (acc, c :: cs) := by
  match fuel with
  | 0 => rfl
  | f + 1 =>
    simp only [sepIdents]
    split
    · rename_i heq
      cases heq
      exact absurd rfl hc
    · rfl

theorem dropWhile_ne_nil_app (l zs : List Char)
    (h : l.dropWhile isIdentCont ≠ []) :
    (l ++ zs).takeWhile isIdentCont = l.takeWhile isIdentCont ∧
    (l ++ zs).dropWhile isIdentCont = l.dropWhile isIdentCont ++ zs := by
  induction l with
  | nil => simp at h
  | cons c cs ih =>
    by_cases hc : isIdentCont c
    · rw [List.dropWhile_cons_of_pos hc] at h
      obtain ⟨h1, h2⟩ := ih h
      constructor
      · simp only [List.cons_append]
        rw [List.takeWhile_cons_of_pos hc, List.takeWhile_cons_of_pos hc, h1]
      · simp only [List.cons_append]
        rw [List.dropWhile_cons_of_pos hc, List.dropWhile_cons_of_pos hc, h2]
    · constructor
      · simp only [List.cons_append]
        rw [List.takeWhile_cons_of_neg hc, List.takeWhile_cons_of_neg hc]
      · simp only [List.cons_append]
        rw [List.dropWhile_cons_of_neg hc, List.dropWhile_cons_of_neg hc]
        rfl

/-- If `ident` stops strictly inside the input, appending more input
changes nothing about the token or the stopping point. -/
theorem ident_app_of_rest_ne {l tok r : List Char} (zs : List Char)
    (h : ident l = some (tok, r)) (hr : r ≠ []) :
    ident (l ++ zs) = some (tok, r ++ zs) := by
  match l with
  | [] => simp [ident] at h
  | c :: cs =>
    simp only [ident] at h
    split at h
    · rename_i hstart
      cases h
      obtain ⟨h1, h2⟩ := dropWhile_ne_nil_app cs zs hr
      simp only [List.cons_append, ident, hstart, if_true]
      rw [h1, h2]
    · cases h

/-- If `ident` consumed the whole input, appending input that starts with
a non-continuation character moves the stopping point to the new
boundary. -/
theorem ident_app_of_rest_nil {l tok : List Char} (zs : List Char)
    (h : ident l = some (tok, [])) (hz : headNotCont zs) :
    ident (l ++ zs) = some (tok, zs) := by
  match l with
  | [] => simp [ident] at h
  | c :: cs =>
    simp only [ident] at h
    split at h
    · rename_i hstart
      injection h with h
      injection h with h1 h2
      have hall : cs.all isIdentCont = true := by
        rw [List.all_eq_true]
        intro x hx
        exact List.dropWhile_eq_nil_iff.mp h2 x hx
      have htake : cs.takeWhile isIdentCont = cs :=
        List.takeWhile_eq_self_iff.mpr (List.all_eq_true.mp hall)
      simp only [List.cons_append, ident, hstart, if_true]
      rw [takeWhile_app cs zs hall hz, dropWhile_app cs zs hall hz, ← h1, htake]
    · cases h

/-- If the separator loop consumed its whole input, appending input that
starts with a character that can extend neither an identifier nor the
separator list leaves the tokens unchanged and that input unconsumed. -/
theorem sepIdents_app {c : Char} {cs : List Char} (hcont : isIdentCont c = false)
    (hdash : c ≠ '-') :
    ∀ (fuel fuel' : Nat) (acc toks : List (List Char)) (l : List Char),
      l.length ≤ fuel → (l ++ c :: cs).length ≤ fuel' →
      sepIdents fuel acc l = (toks, []) →
      sepIdents fuel' acc (l ++ c :: cs) = (toks, c :: cs) := by
  intro fuel
  induction fuel with
  | zero =>
    intro fuel' acc toks l hl _ hson
    have : l = [] := List.eq_nil_of_length_eq_zero (Nat.le_zero.mp hl)
    subst this
    rw [sepIdents_nil] at hson
    cases hson
    simp only [List.nil_append]
    exact sepIdents_stop fuel' acc c cs hdash
  | succ f ih =>
    intro fuel' acc toks l hl hl' hson
    match l with
    | [] =>
      rw [sepIdents_nil] at hson
      cases hson
      simp only [List.nil_append]
      exact sepIdents_stop fuel' acc c cs hdash
    | d :: ds =>
      by_cases hd : d = '-'
      · subst hd
        simp only [sepIdents] at hson
        rcases fuel' with _ | f'
        · exfalso
          simp at hl'
        cases hi : ident ds with
        | none =>
          rw [hi] at hson
          cases hson
        | some pr =>
          obtain ⟨tok, r⟩ := pr
          rw [hi] at hson
          change sepIdents f (acc ++ [tok]) r = (toks, []) at hson
          simp only [List.cons_append, sepIdents]
          cases r with
          | nil =>
            rw [ident_app_of_rest_nil (c :: cs) hi (show headNotCont (c :: cs) from hcont)]
            show sepIdents f' (acc ++ [tok]) (c :: cs) = (toks, c :: cs)
            rw [sepIdents_nil] at hson
            cases hson
            exact sepIdents_stop f' (acc ++ [tok]) c cs hdash
          | cons r0 rs =>
            rw [ident_app_of_rest_ne (c :: cs) hi (by simp)]
            show sepIdents f' (acc ++ [tok]) ((r0 :: rs) ++ c :: cs) = (toks, c :: cs)
            have hlt : (r0 :: rs).length < ds.length := ident_rest_length hi
            apply ih f' (acc ++ [tok]) toks (r0 :: rs) ?_ ?_ hson
            · simp only [List.length_cons] at hl hlt ⊢
              omega
            · simp only [List.cons_append, List.length_cons, List.length_append] at hl' hlt ⊢
              omega
      · rw [sepIdents_stop (f + 1) acc d ds hd] at hson
        simp [Prod.ext_iff] at hson

/-- The full tokenizer: a completely consumed input, extended by a
character that cannot continue a token or the list, tokenizes to the same
tokens with the extension unconsumed. -/
theorem parseIdentList_app {l : List Char} {toks : List (List Char)} {c : Char}
    {cs : List Char} (hcont : isIdentCont c = false) (hdash : c ≠ '-')
    (h : parseIdentList l = some (toks, [])) :
    parseIdentList (l ++ c :: cs) = some (toks, c :: cs) := by
  unfold parseIdentList at h ⊢
  cases hi : ident l with
  | none =>
    rw [hi] at h
    cases h
  | some pr =>
    obtain ⟨tok, r⟩ := pr
    rw [hi] at h
    injection h with h
    cases r with
    | nil =>
      rw [sepIdents_nil] at h
      cases h
      rw [ident_app_of_rest_nil (c :: cs) hi (show headNotCont (c :: cs) from hcont)]
      show some (sepIdents (c :: cs).length [tok] (c :: cs)) = _
      rw [sepIdents_stop _ _ _ _ hdash]
    | cons r0 rs =>
      rw [ident_app_of_rest_ne (c :: cs) hi (by simp)]
      show some (sepIdents ((r0 :: rs) ++ c :: cs).length [tok] ((r0 :: rs) ++ c :: cs)) = _
      rw [sepIdents_app hcont hdash (r0 :: rs).length _ [tok] toks (r0 :: rs)
        (Nat.le_refl _) (Nat.le_refl _) h]

/-- Method `Triple::parse` on a completely consumed input, extended by a
character that cannot extend it: same triple, extension unconsumed. -/
theorem parse_app {l : List Char} {t : Triple} {c : Char} {cs : List Char}
    (hcont : isIdentCont c = false) (hdash : c ≠ '-')
    (h : Triple.parse l = .ok (t, [])) :
    Triple.parse (l ++ c :: cs) = .ok (t, c :: cs) := by
  unfold Triple.parse at h ⊢
  cases hq : parseIdentList l with
  | none =>
    rw [hq] at h
    cases h
  | some pr =>
    obtain ⟨toks, r⟩ := pr
    rw [hq] at h
    match toks, h with
    | [], h => cases h
    | [t1], h => cases h
    | [t1, t2], h => cases h
    | t1 :: t2 :: t3 :: t4 :: t5 :: ts, h => cases h
    | [arch, os, abi], h =>
      change (do
        let a ← Arch.parse1 arch
        let o ← Os.parse_osabi (String.mk os) (String.mk abi)
        Except.ok ((⟨a, "unknown", o⟩ : Triple), r)) = Except.ok (t, []) at h
      cases har : Arch.parse1 arch with
      | error e =>
        rw [har] at h
        cases h
      | ok a =>
        rw [har] at h
        cases hos : Os.parse_osabi (String.mk os) (String.mk abi) with
        | error e =>
          rw [hos] at h
          cases h
        | ok o =>
          rw [hos] at h
          change Except.ok ((⟨a, "unknown", o⟩ : Triple), r) = Except.ok (t, []) at h
          injection h with h
          injection h with h1 h2
          subst h2
          rw [parseIdentList_app hcont hdash hq]
          show (do
            let a ← Arch.parse1 arch
            let o ← Os.parse_osabi (String.mk os) (String.mk abi)
            Except.ok ((⟨a, "unknown", o⟩ : Triple), c :: cs)) = _
          rw [har, hos]
          show Except.ok ((⟨a, "unknown", o⟩ : Triple), c :: cs) = _
          rw [h1]
    | [arch, vendor, os, abi], h =>
      change (do
        let a ← Arch.parse1 arch
        let o ← Os.parse_osabi (String.mk os) (String.mk abi)
        Except.ok ((⟨a, String.mk vendor, o⟩ : Triple), r)) = Except.ok (t, []) at h
      cases har : Arch.parse1 arch with
      | error e =>
        rw [har] at h
        cases h
      | ok a =>
        rw [har] at h
        cases hos : Os.parse_osabi (String.mk os) (String.mk abi) with
        | error e =>
          rw [hos] at h
          cases h
        | ok o =>
          rw [hos] at h
          change Except.ok ((⟨a, String.mk vendor, o⟩ : Triple), r) = Except.ok (t, []) at h
          injection h with h
          injection h with h1 h2
          subst h2
          rw [parseIdentList_app hcont hdash hq]
          show (do
            let a ← Arch.parse1 arch
            let o ← Os.parse_osabi (String.mk os) (String.mk abi)
            Except.ok ((⟨a, String.mk vendor, o⟩ : Triple), c :: cs)) = _
          rw [har, hos]
          show Except.ok ((⟨a, String.mk vendor, o⟩ : Triple), c :: cs) = _
          rw [h1]

theorem os_display_split (o : Os) : o.display = o.kernelStr ++ "-" ++ o.abiStr := by
  rcases o with libc | abi
  · cases libc <;> rfl
  · cases abi <;> rfl

theorem os_parse_kernel_abi (o : Os) : Os.parse_osabi o.kernelStr o.abiStr = .ok o := by
  rcases o with libc | abi
  · cases libc <;> rfl
  · cases abi <;> rfl

theorem os_kernel_token (o : Os) : isIdentToken o.kernelStr.data = true := by
  rcases o with libc | abi
  · cases libc <;> decide
  · cases abi <;> decide

theorem os_abi_token (o : Os) : isIdentToken o.abiStr.data = true := by
  rcases o with libc | abi
  · cases libc <;> decide
  · cases abi <;> decide

/-!
## Claim theorems
-/

/-- C1 (code evidence): contrary to the propagation policy, the Parse
operation does not return an error value on an unknown ABI token or an
unknown kernel token: `Os::parse_osabi` calls `.unwrap()` on the failed abi
parse and `panic!()` on the unknown kernel, so `"m68k-linux-bionic"`
(unknown Linux libc), `"m68k-windows-gnu"` (unknown kernel) and
`"m68k-none-eabi"` (unknown bare-metal abi) all make the program panic. -/
theorem c1_unknown_kernel_or_abi_panics :
    Triple.fromStr "m68k-linux-bionic" = .error (.panicked "unwrap") ∧
    Triple.fromStr "m68k-windows-gnu" = .error (.panicked "explicit panic") ∧
    Triple.fromStr "m68k-none-eabi" = .error (.panicked "unwrap") :=
  ⟨rfl, rfl, rfl⟩

/-- C2 (code evidence): contrary to the claim, a token count other than 3
or 4 does not produce a structural parse error value: the wildcard arm of
the token-count match in `Triple::parse` is the placeholder
`todo!("proper errors, invalid triple length or something")`, a panic.
Both the 2-token input `"only-two"` and a 5-token input hit it. -/
theorem c2_bad_token_count_panics :
    Triple.fromStr "only-two" =
      .error (.panicked "todo: proper errors, invalid triple length or something") ∧
    Triple.fromStr "a-b-c-d-e" =
      .error (.panicked "todo: proper errors, invalid triple length or something") :=
  ⟨rfl, rfl⟩

/-- C3 (counterexample): the claim quantifies over every constructible
`Triple` including an `Sh3(Big)` architecture, but the `Display`
implementation hits `todo!("sh3 big endian")` there (modeled as `none`):
there is no display string whose parse could return the triple, so
`parse(display(t)) == t` fails at this input. -/
theorem c3_sh3_big_display_panics :
    Triple.display ⟨.Sh3 .Big, "unknown", .None .Elf⟩ = none :=
  rfl

/-- C3 (amended): for every `Triple` whose architecture is not `Sh3(Big)`
(the one variant whose display is the `todo!` placeholder) and whose
vendor is an identifier token (as every parsed vendor is), the canonical
display exists and re-parses to an equal `Triple`. -/
theorem c3_roundtrip (t : Triple) (harch : t.arch ≠ .Sh3 .Big)
    (hv : isIdentToken t.vendor.data = true) :
    ∃ s, t.display = some s ∧ Triple.fromStr s = .ok t := by
  obtain ⟨a, v, o⟩ := t
  cases hd : a.display with
  | none => exact absurd (arch_display_none hd) harch
  | some as =>
    obtain ⟨hpa, hta⟩ := arch_display_parse1 hd
    refine ⟨as ++ "-" ++ v ++ "-" ++ o.display, ?_, ?_⟩
    · simp [Triple.display, hd]
    · apply fromStr_via_tokens _ as.data v.data o.kernelStr.data o.abiStr.data
      · rw [os_display_split]
        simp only [dataAppend, dataMk, List.append_assoc]
        simp [show ("-" : String).data = ['-'] from rfl]
      · exact hta
      · exact hv
      · exact os_kernel_token o
      · exact os_abi_token o
      · exact hpa
      · rw [mkData, mkData]
        exact os_parse_kernel_abi o

/-- Witness for C3 (amended): the round-trip theorem applied to the
concrete triple `aarch64_be-pc-linux-uclibc`. -/
theorem c3_roundtrip_witness :
    (Triple.mk (.Arm64 .Big) "pc" (.Linux .Uclibc)).arch ≠ .Sh3 .Big ∧
    isIdentToken (Triple.mk (.Arm64 .Big) "pc" (.Linux .Uclibc)).vendor.data = true ∧
    ∃ s, (Triple.mk (.Arm64 .Big) "pc" (.Linux .Uclibc)).display = some s ∧
      Triple.fromStr s = .ok (Triple.mk (.Arm64 .Big) "pc" (.Linux .Uclibc)) :=
  ⟨by decide, by decide, c3_roundtrip _ (by decide) (by decide)⟩

/-- C4 (counterexample): the display of
`Triple{ arch: Sh3(Little), vendor: "unknown", os: None(Elf) }` is not
`"sh3-unknown-elf"`: the `Os` component serializes as `"none-elf"`, so the
triple serializes as `"sh3-unknown-none-elf"`. -/
theorem c4_display_is_not_input :
    Triple.display ⟨.Sh3 .Little, "unknown", .None .Elf⟩ ≠ some "sh3-unknown-elf" := by
  intro h
  simp [Triple.display, Arch.display, Os.display, NoneAbi.display] at h

/-- C4 (amended): parsing `"sh3-unknown-elf"` yields
`Triple{ arch: Sh3(Little), vendor: "unknown", os: None(Elf) }` (the
3-token shape resolves `unknown` as the kernel token), and the display of
that triple is exactly `"sh3-unknown-none-elf"`. -/
theorem c4_sh3_parse_and_display :
    Triple.fromStr "sh3-unknown-elf" = .ok ⟨.Sh3 .Little, "unknown", .None .Elf⟩ ∧
    Triple.display ⟨.Sh3 .Little, "unknown", .None .Elf⟩ = some "sh3-unknown-none-elf" :=
  ⟨rfl, rfl⟩

/-- C5: `"aarch64-linux-gnu"` and the alias spelling `"arm64-linux-gnu"`
parse to the same `Triple`, and displaying the parse of
`"arm64-linux-gnu"` gives the canonical `"aarch64-unknown-linux-gnu"`,
never echoing the alias. -/
theorem c5_alias_equivalence :
    Triple.fromStr "aarch64-linux-gnu" = .ok ⟨.Arm64 .Little, "unknown", .Linux .Gnu⟩ ∧
    Triple.fromStr "arm64-linux-gnu" = .ok ⟨.Arm64 .Little, "unknown", .Linux .Gnu⟩ ∧
    Triple.display ⟨.Arm64 .Little, "unknown", .Linux .Gnu⟩ =
      some "aarch64-unknown-linux-gnu" :=
  ⟨rfl, rfl, rfl⟩

/-- C6: for every supported architecture identifier and kernel/abi token
pair, the 3-token spelling `{arch}-{os}-{abi}` and the 4-token spelling
`{arch}-unknown-{os}-{abi}` both parse, to equal `Triple` values whose
vendor is the literal `"unknown"`. -/
theorem c6_default_vendor (a : String) (ha : a ∈ archTokens)
    (p : String × String) (hp : p ∈ osAbiPairs) :
    vendorDefaultAgrees a p = true := by
  fin_cases ha <;> fin_cases hp <;> decide

/-- Witness for C6: the equivalence at `m68k` with `linux-gnu`. -/
theorem c6_default_vendor_witness :
    vendorDefaultAgrees "m68k" ("linux", "gnu") = true :=
  c6_default_vendor "m68k" (by decide) ("linux", "gnu") (by decide)

/-- C7: directive emission is in the fixed order family, endianness,
bit-width, vendor, kernel/libc; Linux emits `CT_LIBC_GLIBC=y` for `Gnu`,
`CT_LIBC_MUSL=y` for `Musl`, and the `=y`-less `CT_LIBC_UCLIBC_NG` for
`Uclibc`; bare-metal `None(Elf)` emits only the kernel directive with no
ABI-specific directive. -/
theorem c7_directive_order_and_literals (t : Triple) :
    t.emit_crosstool_config [] =
      [t.arch.family_cfg, t.arch.endian_cfg, t.arch.bitness_cfg,
        "CT_TARGET_VENDOR=" ++ t.vendor] ++
      (match t.os with
       | .Linux .Gnu => ["CT_KERNEL_LINUX=y", "CT_LIBC_GLIBC=y"]
       | .Linux .Musl => ["CT_KERNEL_LINUX=y", "CT_LIBC_MUSL=y"]
       | .Linux .Uclibc => ["CT_KERNEL_LINUX=y", "CT_LIBC_UCLIBC_NG"]
       | .None .Elf => ["CT_KERNEL_BARE_METAL=y"]) := by
  obtain ⟨a, v, o⟩ := t
  match o with
  | .Linux .Gnu => rfl
  | .Linux .Musl => rfl
  | .Linux .Uclibc => rfl
  | .None .Elf => rfl

/-- C8: endianness and bit-width directives are functions of the `Arch`
variant alone: `Mips64(Big)` emits the big-endian and 64-bit markers,
`M68k` emits the little-endian and 32-bit markers, the payload-free
architectures (`M68k`, every `X86`) always give the little-endian marker,
and the 64-bit marker is produced exactly for `Arm64`, `Mips64`,
`X86(X86_64)` and `X86(X86_64h)`, every other variant giving the 32-bit
marker. -/
theorem c8_endian_bitness_derivation :
    (∀ (v : String) (o : Os),
      "CT_ARCH_BE=y" ∈ Triple.emit_crosstool_config ⟨.Mips64 .Big, v, o⟩ [] ∧
      "CT_ARCH_64=y" ∈ Triple.emit_crosstool_config ⟨.Mips64 .Big, v, o⟩ []) ∧
    (∀ (v : String) (o : Os),
      "CT_ARCH_LE=y" ∈ Triple.emit_crosstool_config ⟨.M68k, v, o⟩ [] ∧
      "CT_ARCH_32=y" ∈ Triple.emit_crosstool_config ⟨.M68k, v, o⟩ []) ∧
    (Arch.M68k.endian_cfg = "CT_ARCH_LE=y") ∧
    (∀ x : X86Variant, (Arch.X86 x).endian_cfg = "CT_ARCH_LE=y") ∧
    (∀ a : Arch, a.bitness_cfg = "CT_ARCH_64=y" ↔
      ((∃ e, a = .Arm64 e) ∨ (∃ e, a = .Mips64 e) ∨
        a = .X86 .X86_64 ∨ a = .X86 .X86_64h)) ∧
    (∀ a : Arch, a.bitness_cfg = "CT_ARCH_64=y" ∨ a.bitness_cfg = "CT_ARCH_32=y") := by
  refine ⟨?_, ?_, rfl, ?_, ?_, ?_⟩
  · intro v o
    cases o with
    | Linux libc =>
      cases libc <;>
        simp [Triple.emit_crosstool_config, Arch.emit_crosstool_config,
          Os.emit_crosstool_config, Arch.endian_cfg, Arch.bitness_cfg]
    | None abi =>
      cases abi <;>
        simp [Triple.emit_crosstool_config, Arch.emit_crosstool_config,
          Os.emit_crosstool_config, Arch.endian_cfg, Arch.bitness_cfg]
  · intro v o
    cases o with
    | Linux libc =>
      cases libc <;>
        simp [Triple.emit_crosstool_config, Arch.emit_crosstool_config,
          Os.emit_crosstool_config, Arch.endian_cfg, Arch.bitness_cfg]
    | None abi =>
      cases abi <;>
        simp [Triple.emit_crosstool_config, Arch.emit_crosstool_config,
          Os.emit_crosstool_config, Arch.endian_cfg, Arch.bitness_cfg]
  · intro x
    cases x <;> rfl
  · intro a
    cases a with
    | Arm64 e => cases e <;> simp [Arch.bitness_cfg]
    | M68k => simp [Arch.bitness_cfg]
    | Mips32 e => cases e <;> simp [Arch.bitness_cfg]
    | Mips64 e => cases e <;> simp [Arch.bitness_cfg]
    | Sh3 e => cases e <;> simp [Arch.bitness_cfg]
    | X86 x => cases x <;> simp [Arch.bitness_cfg]
  · intro a
    cases a with
    | Arm64 e => cases e <;> simp [Arch.bitness_cfg]
    | M68k => simp [Arch.bitness_cfg]
    | Mips32 e => cases e <;> simp [Arch.bitness_cfg]
    | Mips64 e => cases e <;> simp [Arch.bitness_cfg]
    | Sh3 e => cases e <;> simp [Arch.bitness_cfg]
    | X86 x => cases x <;> simp [Arch.bitness_cfg]

/-- C9: the Parse operation succeeds only when the whole input is
consumed: appending to any successfully parsed input a nonempty suffix
whose first character can extend neither the last identifier (it is not
alphanumeric or an underscore) nor the dash-separated list (it is not a
dash) makes the parse return an error. -/
theorem c9_no_trailing (s : String) (t : Triple) (c : Char) (cs : List Char)
    (hok : Triple.fromStr s = .ok t) (hcont : isIdentCont c = false)
    (hdash : c ≠ '-') :
    Triple.fromStr (s ++ String.mk (c :: cs)) = .error .err := by
  unfold Triple.fromStr at hok
  cases hp : Triple.parse s.data with
  | error e =>
    rw [hp] at hok
    cases hok
  | ok pr =>
    obtain ⟨t0, rest⟩ := pr
    rw [hp] at hok
    change (if rest = [] then Except.ok t0 else Except.error RunError.err) = Except.ok t at hok
    by_cases hrest : rest = []
    · subst hrest
      rw [if_pos rfl] at hok
      injection hok with hok
      subst hok
      unfold Triple.fromStr
      have happ : Triple.parse ((s ++ String.mk (c :: cs)).data) = .ok (t0, c :: cs) := by
        rw [dataAppend, dataMk]
        exact parse_app hcont hdash hp
      rw [happ]
      change (if c :: cs = [] then Except.ok t0 else Except.error RunError.err) = _
      rw [if_neg (by simp)]
    · rw [if_neg hrest] at hok
      cases hok

/-- Witness for C9: `"m68k-linux-gnu"` parses, `'!'` can extend neither an
identifier nor the list, and `"m68k-linux-gnu!"` is rejected with a parse
error. -/
theorem c9_no_trailing_witness :
    Triple.fromStr "m68k-linux-gnu" = .ok ⟨.M68k, "unknown", .Linux .Gnu⟩ ∧
    isIdentCont '!' = false ∧ '!' ≠ '-' ∧
    Triple.fromStr ("m68k-linux-gnu" ++ String.mk ['!']) = .error .err :=
  ⟨rfl, by decide, by decide,
    c9_no_trailing "m68k-linux-gnu" ⟨.M68k, "unknown", .Linux .Gnu⟩ '!' [] rfl
      (by decide) (by decide)⟩

/-- C10: `emit_crosstool_config` only appends to the directive vector:
whatever `opts` already held is preserved as a prefix in its original
order, and exactly 6 directives are appended for a Linux os and exactly 5
for a bare-metal one. -/
theorem c10_emit_appends (t : Triple) (opts : List String) :
    t.emit_crosstool_config opts = opts ++ t.emit_crosstool_config [] ∧
    (t.emit_crosstool_config []).length =
      (match t.os with
       | .Linux _ => 6
       | .None _ => 5) := by
  obtain ⟨a, v, o⟩ := t
  cases o with
  | Linux libc =>
    cases libc <;>
      simp [Triple.emit_crosstool_config, Arch.emit_crosstool_config,
        Os.emit_crosstool_config]
  | None abi =>
    cases abi <;>
      simp [Triple.emit_crosstool_config, Arch.emit_crosstool_config,
        Os.emit_crosstool_config]

end Chained
